import Mathlib

/-!
Verification of the schema flattener and query-type deriver of this
repository (crud-zod-type-utils / crud-type), over a shallow embedding of
the Zod schema tree the source operates on.

The source encodes the algorithms as TypeScript conditional types
(`FlattenZodObjectWithTypes`, `FlattenZodFieldWithTypes`, `QueryTypes`,
`QueryPopulateFieldFilter`, `PickZodObjectKeys`, `CombineZodObjects`) plus
one runtime function (`getFilterSchema`) and the CRUD router factory
(`createCrudRouter`).  Here each schema node is a constructor of an
inductive type, and each type-level operator becomes a function on that
tree, following the source branch for branch.
-/

/-- Stand-in for the object-level configuration a Zod object carries
(the source reads it as `T["_zod"]["config"]`); the algorithms only copy
it around, so an opaque tag suffices. -/
structure ZodConfig where
  tag : Nat
deriving DecidableEq, Repr

/-- The Zod schema tree, one constructor per schema kind the source
distinguishes.  `dateTime` stands for a schema whose inferred output
type is a luxon `DateTime` (the `z.infer<T> extends DateTime<boolean>`
test in `QueryTypes`); a plain `z.date()` is `date`.  `zodTypeAny`
mirrors `z.ZodTypeAny`, produced only by the depth-guard branch of
`FlattenZodObjectWithTypes`. -/
inductive ZodType where
  | string
  | number
  | boolean
  | date
  | dateTime
  | literalStr (s : String)
  | enumT (vals : List String)
  | never
  | zodTypeAny
  | optional (t : ZodType)
  | nullable (t : ZodType)
  | array (t : ZodType)
  | union (opts : List ZodType)
  | object (shape : List (String × ZodType)) (config : ZodConfig)
deriving Repr

/-- True exactly on `ZodObject` nodes (the `T extends ZodObject<any>`
test). -/
def isObject : ZodType → Bool
  | .object _ _ => true
  | _ => false

/-- UnwrapZodType from the source: strip `ZodOptional` and `ZodNullable`
wrappers recursively. -/
def unwrapZodType : ZodType → ZodType
  | .optional t => unwrapZodType t
  | .nullable t => unwrapZodType t
  | t => t

/-- TypeScript number literal types as they appear in the source's depth
counter: either a literal (`0`, `1`, ...) or the non-literal type
`number`. -/
inductive TSNum where
  | lit (n : Nat)
  | num
deriving DecidableEq, Repr

/-- Increment from the source, `[...Array<N>, 0]["length"]`: spreading the
non-tuple array type `Array<N>` yields a variadic tuple whose `length` is
the non-literal type `number`, for every `N`.  So the source's "increment"
collapses every depth to `number`. -/
def TSNum.increment : TSNum → TSNum := fun _ => .num

/-- LHSStringSchema from the source: the relational-operator object for
strings, every field optional. -/
def LHSStringSchema : ZodType :=
  .object
    [("in", .optional (.array .string)),
     ("notIn", .optional (.array .string)),
     ("contains", .optional .string),
     ("startsWith", .optional .string),
     ("endsWith", .optional .string)]
    ⟨0⟩

/-- LHSNumberSchema from the source. -/
def LHSNumberSchema : ZodType :=
  .object
    [("in", .optional (.array .number)),
     ("notIn", .optional (.array .number)),
     ("gt", .optional .number),
     ("gte", .optional .number),
     ("lt", .optional .number),
     ("lte", .optional .number)]
    ⟨0⟩

/-- LHSDateSchema from the source. -/
def LHSDateSchema : ZodType :=
  .object
    [("in", .optional (.array .date)),
     ("notIn", .optional (.array .date)),
     ("gt", .optional .date),
     ("gte", .optional .date),
     ("lt", .optional .date),
     ("lte", .optional .date)]
    ⟨0⟩

/-- QueryTypes from the source: the type-level query/filter variant of a
leaf.  The branches, in source order: infers-DateTime, ZodString,
ZodNumber, ZodBoolean (returned unchanged), and the default
`union [T, T array]`. -/
def QueryTypes (t : ZodType) : ZodType :=
  match t with
  | .dateTime => .union [.date, .array .date, LHSDateSchema]
  | .string => .union [.string, .array .string, LHSStringSchema]
  | .number => .union [.number, .array .number, LHSNumberSchema]
  | .boolean => .boolean
  | t => .union [t, .array t]

/-- getFilterSchema from the source (runtime counterpart of `QueryTypes`):
dispatch on `instanceof` ZodString / ZodNumber / ZodDate, default
`z.union([type, z.array(type)])`.  Note there is no ZodBoolean branch. -/
def getFilterSchema (t : ZodType) : ZodType :=
  match t with
  | .string => .union [.string, .array .string, LHSStringSchema]
  | .number => .union [.number, .array .number, LHSNumberSchema]
  | .date => .union [.date, .array .date, LHSDateSchema]
  | t => .union [t, .array t]

mutual
/-- Per-field traversal of an object shape: each field `K` of the shape
contributes `FlattenZodFieldWithTypes<shape[K], Path ++ K, Increment<Depth>>`
and the per-field records are merged (the source's
`UnionToIntersection` over the mapped type), here by concatenation in
shape order. -/
def flattenShape : List (String × ZodType) → String → TSNum → List (String × ZodType)
  | [], _, _ => []
  | (k, v) :: rest, path, depth =>
      FlattenZodFieldWithTypes v (path ++ k) depth.increment ++ flattenShape rest path depth

/-- FlattenZodFieldWithTypes from the source: if `Depth extends 1`, stop
with `{Path: QueryTypes<T>}`; otherwise unwrap Optional/Nullable, recurse
into Objects with `Path ++ "_"` (the object case inlines the body of
`FlattenZodObjectWithTypes`, whose root is known to be an Object here),
flatten a Union if every member is an Object, and otherwise record the
leaf as `{Path: QueryTypes<T>}`. -/
def FlattenZodFieldWithTypes : ZodType → String → TSNum → List (String × ZodType)
  | t, path, depth =>
    if depth = TSNum.lit 1 then [(path, QueryTypes t)]
    else match t with
      | .optional inner => FlattenZodFieldWithTypes inner path depth
      | .nullable inner => FlattenZodFieldWithTypes inner path depth
      | .object shape _ =>
          if depth = TSNum.lit 1 then [(path ++ "_", ZodType.zodTypeAny)]
          else flattenShape shape (path ++ "_") depth
      | .union opts =>
          if opts.all isObject then flattenUnionList opts (path ++ "_") depth.increment
          else [(path, QueryTypes (.union opts))]
      | t => [(path, QueryTypes t)]

/-- Distribution of `FlattenUnionObjects` over the members of a union
(the source distributes the conditional type over `Options[number]` and
merges the results with `UnionToIntersection`). -/
def flattenUnionList : List ZodType → String → TSNum → List (String × ZodType)
  | [], _, _ => []
  | o :: rest, path, depth => FlattenUnionObjects o path depth ++ flattenUnionList rest path depth

/-- FlattenUnionObjects from the source: an Object member is flattened
with the given path (again inlining `FlattenZodObjectWithTypes` on a known
Object root); any other member is recorded as `{Path: T}`. -/
def FlattenUnionObjects : ZodType → String → TSNum → List (String × ZodType)
  | t, path, depth =>
    match t with
    | .object shape _ =>
        if depth = TSNum.lit 1 then [(path, ZodType.zodTypeAny)]
        else flattenShape shape path depth
    | t => [(path, t)]
end

/-- FlattenZodObjectWithTypes from the source: if `Depth extends 1`,
degenerate to `{[K in Path]: z.ZodTypeAny}`; for an Object root, flatten
its shape; any other root yields `never` (modelled as `none`). -/
def FlattenZodObjectWithTypes (t : ZodType) (path : String) (depth : TSNum) :
    Option (List (String × ZodType)) :=
  if depth = TSNum.lit 1 then some [(path, ZodType.zodTypeAny)]
  else match t with
    | .object shape _ => some (flattenShape shape path depth)
    | _ => none

/-- The object and union-member branches of `FlattenZodFieldWithTypes`
really are `FlattenZodObjectWithTypes` applied to the Object, as in the
source; the inlined bodies above agree with it. -/
theorem flatten_field_object_delegates (shape : List (String × ZodType)) (c : ZodConfig)
    (path : String) (depth : TSNum) (h : ¬ depth = TSNum.lit 1) :
    FlattenZodFieldWithTypes (.object shape c) path depth
      = (FlattenZodObjectWithTypes (.object shape c) (path ++ "_") depth).getD []
    ∧ FlattenUnionObjects (.object shape c) path depth
      = (FlattenZodObjectWithTypes (.object shape c) path depth).getD [] := by
  constructor <;> simp [FlattenZodFieldWithTypes, FlattenUnionObjects,
    FlattenZodObjectWithTypes, h]

/-- MergeFlattened from the source: flatten with the default arguments
(empty path, depth literal 0). -/
def MergeFlattened (t : ZodType) : Option (List (String × ZodType)) :=
  FlattenZodObjectWithTypes t "" (TSNum.lit 0)

/-- NestedZodKeysWithTypes from the source: rebuild a ZodObject from the
flattened shape, keeping the root object's config. -/
def NestedZodKeysWithTypes : ZodType → Option ZodType
  | .object shape cfg => (MergeFlattened (.object shape cfg)).map (fun s => .object s cfg)
  | _ => none

/-- Example schema of the spec and of the source doc comment:
`{a: string, b: {c: number}}`. -/
def abSchema : ZodType :=
  .object [("a", .string), ("b", .object [("c", .number)] ⟨0⟩)] ⟨0⟩

/-- C1: for the schema `{a: string, b: {c: number}}` the flattener yields
exactly the keys `a` and `b_c`, with `a` mapped to the string query type
and `b_c` to the number query type; `NestedZodKeysWithTypes` packages the
same shape as an object schema. -/
theorem flatten_ab_schema_exact :
    MergeFlattened abSchema
      = some [("a", QueryTypes .string), ("b_c", QueryTypes .number)]
    ∧ NestedZodKeysWithTypes abSchema
      = some (.object [("a", QueryTypes .string), ("b_c", QueryTypes .number)] ⟨0⟩) :=
  ⟨rfl, rfl⟩

/-- C6: the flattener (invoked as at its use sites, with empty path and
depth literal 0) fails, i.e. produces the `never` result modelled as
`none`, exactly when its root argument is not an Object node; on every
Object root it succeeds.  The embedding is a pure function, so producing
the mapping is its only effect. -/
theorem flatten_fails_iff_nonobject_root (t : ZodType) (path : String) :
    (isObject t = false → FlattenZodObjectWithTypes t path (TSNum.lit 0) = none)
    ∧ (isObject t = true →
        ∃ m, FlattenZodObjectWithTypes t path (TSNum.lit 0) = some m) := by
  constructor <;> intro h <;> cases t <;> simp_all [isObject, FlattenZodObjectWithTypes]

/-- Witness for C6 at concrete inputs: a string root fails, an object
root succeeds. -/
theorem flatten_fails_iff_nonobject_root_witness :
    FlattenZodObjectWithTypes .string "" (TSNum.lit 0) = none
    ∧ ∃ m, FlattenZodObjectWithTypes abSchema "" (TSNum.lit 0) = some m :=
  ⟨(flatten_fails_iff_nonobject_root .string "").1 rfl,
   (flatten_fails_iff_nonobject_root abSchema "").2 rfl⟩

/-- Runtime values that a schema may be asked to validate (the JSON-like
universe the repository's query payloads live in; numbers are modelled as
integers, dates as timestamps). -/
inductive Value where
  | str (s : String)
  | num (n : Int)
  | bool (b : Bool)
  | date (ts : Int)
  | null
  | arr (vs : List Value)
  | obj (fields : List (String × Value))
deriving Repr

/-- First binding of a key in a runtime object, JS-object style. -/
def lookupVal : List (String × Value) → String → Option Value
  | [], _ => none
  | (k, v) :: rest, key => if k = key then some v else lookupVal rest key

/-- True on `ZodOptional` nodes: the only fields that may be absent from
an accepted object. -/
def isOptionalNode : ZodType → Bool
  | .optional _ => true
  | _ => false

mutual
/-- Modelled from the spec: the parse/acceptance semantics of the schema
library (zod) is not part of src/ (the repository only builds schema
trees), so acceptance is taken from the spec, section 4.2/8: a
relational-operator object has every field optional and an object with a
key outside the declared set is rejected; a union accepts what any member
accepts; an array accepts element-wise; Optional/Nullable wrap a value
transparently (Nullable also accepting null). -/
def accepts : ZodType → Value → Bool
  | .string, .str _ => true
  | .string, _ => false
  | .number, .num _ => true
  | .number, _ => false
  | .boolean, .bool _ => true
  | .boolean, _ => false
  | .date, .date _ => true
  | .date, _ => false
  | .dateTime, .date _ => true
  | .dateTime, _ => false
  | .literalStr s, .str s2 => s = s2
  | .literalStr _, _ => false
  | .enumT vals, .str s => vals.contains s
  | .enumT _, _ => false
  | .never, _ => false
  | .zodTypeAny, _ => true
  | .optional t, v => accepts t v
  | .nullable t, v => match v with | .null => true | v => accepts t v
  | .array t, .arr vs => vs.all (fun v => accepts t v)
  | .array _, _ => false
  | .union opts, v => acceptsAny opts v
  | .object shape _, .obj fields =>
      acceptsShape shape fields
        && fields.all (fun p => (shape.map Prod.fst).contains p.1)
  | .object _ _, _ => false

/-- A union member list accepts a value when some member does. -/
def acceptsAny : List ZodType → Value → Bool
  | [], _ => false
  | o :: rest, v => accepts o v || acceptsAny rest v

/-- Every declared field of an object shape is satisfied: present values
must match the field schema, absent fields must be Optional. -/
def acceptsShape : List (String × ZodType) → List (String × Value) → Bool
  | [], _ => true
  | (k, t) :: rest, fields =>
      (match lookupVal fields k with
       | none => isOptionalNode t
       | some v => accepts t v)
        && acceptsShape rest fields
end

/-- A successful lookup comes from a list member. -/
theorem lookupVal_mem (fields : List (String × Value)) (k : String) (v : Value)
    (h : lookupVal fields k = some v) : (k, v) ∈ fields := by
  induction fields with
  | nil => simp [lookupVal] at h
  | cons p rest ih =>
    obtain ⟨k2, v2⟩ := p
    by_cases hk : k2 = k
    · subst hk
      simp [lookupVal] at h
      simp [h]
    · simp [lookupVal, hk] at h
      exact List.mem_cons_of_mem _ (ih h)

/-- C2 counterexample: at runtime `getFilterSchema` does not return the
Boolean schema unchanged; it returns the union of the Boolean schema and
its array form (the function has no ZodBoolean branch, so Boolean falls
into the default case), and that union also accepts an array value that
the bare Boolean schema rejects. -/
theorem getFilterSchema_boolean_counterexample :
    getFilterSchema .boolean = .union [.boolean, .array .boolean]
    ∧ getFilterSchema .boolean ≠ .boolean
    ∧ accepts (getFilterSchema .boolean) (.arr [.bool true]) = true
    ∧ accepts .boolean (.arr [.bool true]) = false :=
  ⟨rfl, fun h => ZodType.noConfusion h, rfl, rfl⟩

/-- C2 amended: at the type level `QueryTypes` does return the Boolean
schema itself for a Boolean leaf (no array and no relational member),
but the runtime `getFilterSchema` returns the union of the Boolean schema
and its array form; neither result contains a relational-operator
member. -/
theorem boolean_query_type_amended :
    QueryTypes .boolean = .boolean
    ∧ getFilterSchema .boolean = .union [.boolean, .array .boolean] :=
  ⟨rfl, rfl⟩

/-- C9: for every schema `t`, `getFilterSchema t` is a union whose first
member is `t` itself, so every value accepted by `t` is accepted by the
derived filter schema: deriving a filter never narrows the accepted bare
values. -/
theorem filter_schema_keeps_bare_values (t : ZodType) :
    (∃ rest, getFilterSchema t = .union (t :: rest))
    ∧ ∀ v : Value, accepts t v = true → accepts (getFilterSchema t) v = true := by
  constructor
  · cases t <;> exact ⟨_, rfl⟩
  · intro v hv
    obtain ⟨rest, hr⟩ : ∃ rest, getFilterSchema t = .union (t :: rest) := by
      cases t <;> exact ⟨_, rfl⟩
    rw [hr]
    show (accepts t v || acceptsAny rest v) = true
    simp [hv]

/-- Witness for C9 at a concrete input: the string filter schema accepts
the bare string value `"x"`. -/
theorem filter_schema_keeps_bare_values_witness :
    accepts (getFilterSchema .string) (.str "x") = true :=
  (filter_schema_keeps_bare_values .string).2 (.str "x") rfl

/-- The relational-operator key set of each leaf kind, as the spec states
it: String gets in/notIn/contains/startsWith/endsWith, Number and Date
get in/notIn/gt/gte/lt/lte, everything else has none. -/
def relOpKeys : ZodType → List String
  | .string => ["in", "notIn", "contains", "startsWith", "endsWith"]
  | .number => ["in", "notIn", "gt", "gte", "lt", "lte"]
  | .date => ["in", "notIn", "gt", "gte", "lt", "lte"]
  | _ => []

/-- A single relational-operator binding is well-typed for a leaf kind,
following the spec's operator tables: the set operators take an array of
the leaf value, the substring operators a string, the comparison
operators a bare leaf value. -/
def relFieldOk (base : ZodType) (p : String × Value) : Bool :=
  match base with
  | .string =>
      if p.1 = "in" ∨ p.1 = "notIn" then accepts (.array .string) p.2
      else if p.1 = "contains" ∨ p.1 = "startsWith" ∨ p.1 = "endsWith" then accepts .string p.2
      else false
  | .number =>
      if p.1 = "in" ∨ p.1 = "notIn" then accepts (.array .number) p.2
      else if p.1 = "gt" ∨ p.1 = "gte" ∨ p.1 = "lt" ∨ p.1 = "lte" then accepts .number p.2
      else false
  | .date =>
      if p.1 = "in" ∨ p.1 = "notIn" then accepts (.array .date) p.2
      else if p.1 = "gt" ∨ p.1 = "gte" ∨ p.1 = "lt" ∨ p.1 = "lte" then accepts .date p.2
      else false
  | _ => false

/-- A well-typed relational binding uses a key from the kind's operator
set. -/
theorem relFieldOk_key_mem (base : ZodType) (p : String × Value)
    (h : relFieldOk base p = true) : p.1 ∈ relOpKeys base := by
  cases base <;> simp only [relFieldOk] at h
  case string =>
    split at h
    case isTrue hc => rcases hc with hc | hc <;> simp [relOpKeys, hc]
    case isFalse =>
      split at h
      case isTrue hc => rcases hc with hc | hc | hc <;> simp [relOpKeys, hc]
      case isFalse => exact absurd h (by simp)
  case number =>
    split at h
    case isTrue hc => rcases hc with hc | hc <;> simp [relOpKeys, hc]
    case isFalse =>
      split at h
      case isTrue hc => rcases hc with hc | hc | hc | hc <;> simp [relOpKeys, hc]
      case isFalse => exact absurd h (by simp)
  case date =>
    split at h
    case isTrue hc => rcases hc with hc | hc <;> simp [relOpKeys, hc]
    case isFalse =>
      split at h
      case isTrue hc => rcases hc with hc | hc | hc | hc <;> simp [relOpKeys, hc]
      case isFalse => exact absurd h (by simp)
  all_goals exact absurd h (by simp)

/-- An object shape all of whose fields are Optional and whose looked-up
values are accepted by the wrapped schema is satisfied. -/
theorem acceptsShape_forall (shape : List (String × ZodType)) (fields : List (String × Value))
    (h : ∀ q ∈ shape, ∃ u, q.2 = ZodType.optional u ∧
          ∀ v, lookupVal fields q.1 = some v → accepts u v = true) :
    acceptsShape shape fields = true := by
  induction shape with
  | nil => rfl
  | cons q rest ih =>
    obtain ⟨u, hq, hu⟩ := h q (List.mem_cons_self q rest)
    have hrest := ih (fun q2 hm => h q2 (List.mem_cons_of_mem _ hm))
    obtain ⟨k, t⟩ := q
    simp only at hq
    subst hq
    simp only [acceptsShape, hrest, Bool.and_true]
    cases hl : lookupVal fields k with
    | none => rfl
    | some v => simpa [accepts] using hu v hl

/-- A binding found by lookup in a well-typed relational object is itself
well typed. -/
theorem relFieldOk_lookup (base : ZodType) (fields : List (String × Value))
    (hf : ∀ p ∈ fields, relFieldOk base p = true) (k : String) (v : Value)
    (hl : lookupVal fields k = some v) : relFieldOk base (k, v) = true :=
  hf (k, v) (lookupVal_mem fields k v hl)

/-- An object schema rejects a runtime object that binds a key outside
the declared shape keys. -/
theorem accepts_obj_reject (shape : List (String × ZodType)) (cfg : ZodConfig)
    (fields : List (String × Value)) (p : String × Value) (hp : p ∈ fields)
    (hk : p.1 ∉ shape.map Prod.fst) :
    accepts (ZodType.object shape cfg) (Value.obj fields) = false := by
  show (acceptsShape shape fields
      && fields.all (fun q => (shape.map Prod.fst).contains q.1)) = false
  cases hall : fields.all (fun q => (shape.map Prod.fst).contains q.1) with
  | false => rw [Bool.and_false]
  | true => exact absurd (by simpa using List.all_eq_true.mp hall p hp) hk

/-- C3: for every String, Number or Date leaf, the runtime filter schema
accepts the bare value, an array of accepted values, and a
relational-operator object whose bindings all use that kind's operator
key set (every operator field being optional); and it rejects any object
containing a key outside that set.  The acceptance relation is the
spec-modelled zod parse semantics `accepts`. -/
theorem filter_schema_relational_shape (base : ZodType)
    (hb : base = ZodType.string ∨ base = ZodType.number ∨ base = ZodType.date) :
    (∀ v, accepts base v = true → accepts (getFilterSchema base) v = true)
    ∧ (∀ vs : List Value, (∀ v ∈ vs, accepts base v = true) →
        accepts (getFilterSchema base) (Value.arr vs) = true)
    ∧ (∀ fields : List (String × Value),
        (∀ p ∈ fields, relFieldOk base p = true) →
        accepts (getFilterSchema base) (Value.obj fields) = true)
    ∧ (∀ fields : List (String × Value), ∀ p ∈ fields, p.1 ∉ relOpKeys base →
        accepts (getFilterSchema base) (Value.obj fields) = false) := by
  obtain ⟨rest, hr⟩ : ∃ rest, getFilterSchema base
      = ZodType.union (base :: ZodType.array base :: rest) := by
    rcases hb with rfl | rfl | rfl <;> exact ⟨_, rfl⟩
  refine ⟨?_, ?_, ?_, ?_⟩
  · intro v hv
    rw [hr]
    show (accepts base v || (accepts (ZodType.array base) v || acceptsAny rest v)) = true
    simp [hv]
  · intro vs hvs
    have harr : accepts (ZodType.array base) (Value.arr vs) = true := by
      show vs.all (fun v => accepts base v) = true
      simpa using hvs
    rw [hr]
    show (accepts base (Value.arr vs)
        || (accepts (ZodType.array base) (Value.arr vs) || acceptsAny rest (Value.arr vs))) = true
    simp [harr]
  · intro fields hf
    rcases hb with rfl | rfl | rfl
    · have hLHS : accepts LHSStringSchema (Value.obj fields) = true := by
        simp only [LHSStringSchema, accepts, Bool.and_eq_true]
        refine ⟨acceptsShape_forall _ _ ?_, ?_⟩
        · intro q hq
          simp only [List.mem_cons, List.not_mem_nil, or_false] at hq
          rcases hq with rfl | rfl | rfl | rfl | rfl <;>
            exact ⟨_, rfl, fun v hl => by
              simpa [relFieldOk] using relFieldOk_lookup _ _ hf _ _ hl⟩
        · simp only [List.all_eq_true]
          intro p hp
          have := relFieldOk_key_mem _ _ (hf p hp)
          simp only [relOpKeys] at this
          simpa using this
      show (accepts ZodType.string (Value.obj fields)
          || (accepts (ZodType.array ZodType.string) (Value.obj fields)
          || (accepts LHSStringSchema (Value.obj fields) || false))) = true
      rw [hLHS]; rfl
    · have hLHS : accepts LHSNumberSchema (Value.obj fields) = true := by
        simp only [LHSNumberSchema, accepts, Bool.and_eq_true]
        refine ⟨acceptsShape_forall _ _ ?_, ?_⟩
        · intro q hq
          simp only [List.mem_cons, List.not_mem_nil, or_false] at hq
          rcases hq with rfl | rfl | rfl | rfl | rfl | rfl <;>
            exact ⟨_, rfl, fun v hl => by
              simpa [relFieldOk] using relFieldOk_lookup _ _ hf _ _ hl⟩
        · simp only [List.all_eq_true]
          intro p hp
          have := relFieldOk_key_mem _ _ (hf p hp)
          simp only [relOpKeys] at this
          simpa using this
      show (accepts ZodType.number (Value.obj fields)
          || (accepts (ZodType.array ZodType.number) (Value.obj fields)
          || (accepts LHSNumberSchema (Value.obj fields) || false))) = true
      rw [hLHS]; rfl
    · have hLHS : accepts LHSDateSchema (Value.obj fields) = true := by
        simp only [LHSDateSchema, accepts, Bool.and_eq_true]
        refine ⟨acceptsShape_forall _ _ ?_, ?_⟩
        · intro q hq
          simp only [List.mem_cons, List.not_mem_nil, or_false] at hq
          rcases hq with rfl | rfl | rfl | rfl | rfl | rfl <;>
            exact ⟨_, rfl, fun v hl => by
              simpa [relFieldOk] using relFieldOk_lookup _ _ hf _ _ hl⟩
        · simp only [List.all_eq_true]
          intro p hp
          have := relFieldOk_key_mem _ _ (hf p hp)
          simp only [relOpKeys] at this
          simpa using this
      show (accepts ZodType.date (Value.obj fields)
          || (accepts (ZodType.array ZodType.date) (Value.obj fields)
          || (accepts LHSDateSchema (Value.obj fields) || false))) = true
      rw [hLHS]; rfl
  · intro fields p hp hk
    rcases hb with rfl | rfl | rfl
    · have hLHS : accepts LHSStringSchema (Value.obj fields) = false :=
        accepts_obj_reject _ _ fields p hp (by simpa [relOpKeys] using hk)
      show (accepts ZodType.string (Value.obj fields)
          || (accepts (ZodType.array ZodType.string) (Value.obj fields)
          || (accepts LHSStringSchema (Value.obj fields) || false))) = false
      rw [hLHS]; rfl
    · have hLHS : accepts LHSNumberSchema (Value.obj fields) = false :=
        accepts_obj_reject _ _ fields p hp (by simpa [relOpKeys] using hk)
      show (accepts ZodType.number (Value.obj fields)
          || (accepts (ZodType.array ZodType.number) (Value.obj fields)
          || (accepts LHSNumberSchema (Value.obj fields) || false))) = false
      rw [hLHS]; rfl
    · have hLHS : accepts LHSDateSchema (Value.obj fields) = false :=
        accepts_obj_reject _ _ fields p hp (by simpa [relOpKeys] using hk)
      show (accepts ZodType.date (Value.obj fields)
          || (accepts (ZodType.array ZodType.date) (Value.obj fields)
          || (accepts LHSDateSchema (Value.obj fields) || false))) = false
      rw [hLHS]; rfl

/-- Witness for C3 at the String kind: the string filter schema accepts a
bare string, an array of strings and a well-typed relational object, and
rejects an object with a foreign key. -/
theorem filter_schema_relational_shape_witness :
    accepts (getFilterSchema .string) (.str "x") = true
    ∧ accepts (getFilterSchema .string) (.arr [.str "a", .str "b"]) = true
    ∧ accepts (getFilterSchema .string)
        (.obj [("contains", .str "x"), ("in", .arr [.str "a"])]) = true
    ∧ accepts (getFilterSchema .string) (.obj [("bogus", .num 1)]) = false :=
  ⟨(filter_schema_relational_shape .string (Or.inl rfl)).1 _ rfl,
   (filter_schema_relational_shape .string (Or.inl rfl)).2.1 _ (by decide),
   (filter_schema_relational_shape .string (Or.inl rfl)).2.2.1 _ (by decide),
   (filter_schema_relational_shape .string (Or.inl rfl)).2.2.2 _ ("bogus", .num 1)
     (List.mem_cons_self _ _) (by decide)⟩

/-- An object shape has a field literally named `id` (the
`S extends ⟨id: ZodType⟩` test of `QueryPopulateFieldFilter`). -/
def hasId (shape : List (String × ZodType)) : Bool :=
  shape.any (fun p => p.1 = "id")

/-- Per-field eligibility test of `QueryPopulateFieldFilter` from the
source: after `UnwrapZodType`, an Object whose shape contains `id`, or a
Union all of whose members are Objects containing `id` (TypeScript infers
the union of the member shapes and checks it against the `id` bound,
which holds exactly when every member has it); anything else maps to
`never`. -/
def populateEligible (t : ZodType) : Bool :=
  match unwrapZodType t with
  | .object s _ => hasId s
  | .union opts => opts.all (fun o => match o with | .object s _ => hasId s | _ => false)
  | _ => false

/-- QueryPopulateFieldFilter from the source: each top-level key mapped
to itself or `never`, here to its eligibility bit. -/
def QueryPopulateFieldFilter (shape : List (String × ZodType)) : List (String × Bool) :=
  shape.map (fun p => (p.1, populateEligible p.2))

/-- The key list kept by `NonNeverKeys` over `QueryPopulateFieldFilter`
(the set of literals inside `QueryPopulateFields`); this is the
`selectPopulateFields` operation of the spec. -/
def selectPopulateFields (shape : List (String × ZodType)) : List String :=
  ((QueryPopulateFieldFilter shape).filter (fun p => p.2)).map Prod.fst

/-- QueryPopulateFields from the source, modelled as the list of
populate-eligible top-level field names (the members of the
`ZodArray⟨ZodLiteral⟩` it builds); non-Object roots are outside its
constraint. -/
def QueryPopulateFields : ZodType → Option (List String)
  | .object shape _ => some (selectPopulateFields shape)
  | _ => none

/-- A field is populate-eligible exactly when its unwrapped type is an
Object containing a field named `id`, or a Union all of whose members
are Objects containing `id`. -/
theorem populateEligible_iff (t : ZodType) :
    populateEligible t = true ↔
      (∃ s c, unwrapZodType t = ZodType.object s c ∧ ∃ u, ("id", u) ∈ s)
      ∨ (∃ os, unwrapZodType t = ZodType.union os ∧
          ∀ o ∈ os, ∃ s c, o = ZodType.object s c ∧ ∃ u, ("id", u) ∈ s) := by
  unfold populateEligible
  cases hu : unwrapZodType t with
  | object s c =>
    simp only [hu]
    constructor
    · intro h
      refine Or.inl ⟨s, c, rfl, ?_⟩
      obtain ⟨p, hp, hid⟩ := List.any_eq_true.mp h
      obtain ⟨a, b⟩ := p
      have ha : a = "id" := by simpa using hid
      subst ha
      exact ⟨b, hp⟩
    · rintro (⟨s2, c2, hs, u, hu2⟩ | ⟨os, hs, _⟩)
      · obtain ⟨rfl, rfl⟩ : s2 = s ∧ c2 = c := by
          constructor <;> cases hs <;> rfl
        exact List.any_eq_true.mpr ⟨("id", u), hu2, by simp⟩
      · exact absurd hs (by simp)
  | union os =>
    simp only [hu]
    constructor
    · intro h
      refine Or.inr ⟨os, rfl, ?_⟩
      intro o ho
      have := List.all_eq_true.mp h o ho
      cases o with
      | object s c =>
        refine ⟨s, c, rfl, ?_⟩
        obtain ⟨p, hp, hid⟩ := List.any_eq_true.mp this
        obtain ⟨a, b⟩ := p
        have ha : a = "id" := by simpa using hid
        subst ha
        exact ⟨b, hp⟩
      | _ => exact absurd this (by simp)
    · rintro (⟨s2, c2, hs, _⟩ | ⟨os2, hs, hall⟩)
      · exact absurd hs (by simp)
      · obtain rfl : os2 = os := by cases hs; rfl
        refine List.all_eq_true.mpr ?_
        intro o ho
        obtain ⟨s, c, rfl, u, hu2⟩ := hall o ho
        exact List.any_eq_true.mpr ⟨("id", u), hu2, by simp⟩
  | string => simp [hu]
  | number => simp [hu]
  | boolean => simp [hu]
  | date => simp [hu]
  | dateTime => simp [hu]
  | literalStr s => simp [hu]
  | enumT vals => simp [hu]
  | never => simp [hu]
  | zodTypeAny => simp [hu]
  | optional t2 => simp [hu]
  | nullable t2 => simp [hu]
  | array t2 => simp [hu]

/-- Example schema of the spec: `{author: {id: string, name: string},
title: string}`. -/
def authorTitleSchema : ZodType :=
  .object
    [("author", .object [("id", .string), ("name", .string)] ⟨0⟩),
     ("title", .string)]
    ⟨0⟩

/-- Example schema of the spec: `{title: string}`. -/
def titleOnlySchema : ZodType := .object [("title", .string)] ⟨0⟩

/-- C4: a top-level field name is selected for populate exactly when the
field's type, after unwrapping Optional/Nullable, is an Object whose
shape contains a field literally named `id`, or a Union all of whose
members are Objects containing `id`; every other field is simply
excluded.  On `{author: {id, name}, title}` the result is exactly
`author`, on `{title}` it is empty. -/
theorem populate_fields_characterization :
    (∀ (shape : List (String × ZodType)) (cfg : ZodConfig),
      QueryPopulateFields (.object shape cfg) = some (selectPopulateFields shape))
    ∧ (∀ (shape : List (String × ZodType)) (k : String),
        k ∈ selectPopulateFields shape ↔
          ∃ t, (k, t) ∈ shape ∧
            ((∃ s c, unwrapZodType t = ZodType.object s c ∧ ∃ u, ("id", u) ∈ s)
             ∨ (∃ os, unwrapZodType t = ZodType.union os ∧
                 ∀ o ∈ os, ∃ s c, o = ZodType.object s c ∧ ∃ u, ("id", u) ∈ s)))
    ∧ QueryPopulateFields authorTitleSchema = some ["author"]
    ∧ QueryPopulateFields titleOnlySchema = some [] := by
  refine ⟨fun _ _ => rfl, ?_, rfl, rfl⟩
  intro shape k
  constructor
  · intro h
    obtain ⟨q, hq, hk⟩ := List.mem_map.mp h
    obtain ⟨hq1, hq2⟩ := List.mem_filter.mp hq
    obtain ⟨p, hp, hpq⟩ := List.mem_map.mp hq1
    obtain ⟨a, t⟩ := p
    subst hpq
    simp only at hq2 hk
    subst hk
    exact ⟨t, hp, (populateEligible_iff t).mp (by simpa using hq2)⟩
  · rintro ⟨t, hp, hcond⟩
    refine List.mem_map.mpr ⟨(k, populateEligible t), List.mem_filter.mpr ⟨?_, ?_⟩, rfl⟩
    · exact List.mem_map.mpr ⟨(k, t), hp, rfl⟩
    · simpa using (populateEligible_iff t).mpr hcond

/-- Witness for C4: `author` is selected on the example shape, by the
characterization applied at a concrete field. -/
theorem populate_fields_characterization_witness :
    "author" ∈ selectPopulateFields
      [("author", ZodType.object [("id", ZodType.string), ("name", ZodType.string)] ⟨0⟩),
       ("title", ZodType.string)] :=
  (populate_fields_characterization.2.1 _ "author").mpr
    ⟨ZodType.object [("id", ZodType.string), ("name", ZodType.string)] ⟨0⟩,
     List.mem_cons_self _ _,
     Or.inl ⟨[("id", ZodType.string), ("name", ZodType.string)], ⟨0⟩, rfl,
       ZodType.string, List.mem_cons_self _ _⟩⟩

/-- First binding of a key in an object shape. -/
def lookupZ : List (String × ZodType) → String → Option ZodType
  | [], _ => none
  | (k, v) :: rest, key => if k = key then some v else lookupZ rest key

/-- The shape union `util.Extend<A, B>` underlying `CombineZodObjects`:
the fields of `A` whose keys `B` does not bind, followed by all of `B`
(so `B` wins on any key collision, as `z.merge` does). -/
def extendShape (a b : List (String × ZodType)) : List (String × ZodType) :=
  a.filter (fun p => (lookupZ b p.1).isNone) ++ b

/-- CombineZodObjects from the source: merge two object schemas into
`ZodObject<Extend<A.shape, B.shape>, B.config>`; it constrains both
operands to be Objects. -/
def CombineZodObjects : ZodType → ZodType → Option ZodType
  | .object sa _, .object sb cb => some (.object (extendShape sa sb) cb)
  | _, _ => none

/-- PickZodObjectKeys from the source: keep the fields whose key is both
requested and present, wrapping each in ZodOptional when the Optional
flag is set, and keep the original config. -/
def PickZodObjectKeys (t : ZodType) (ks : List String) (opt : Bool) : Option ZodType :=
  match t with
  | .object shape cfg =>
      some (.object
        ((shape.filter (fun p => ks.contains p.1)).map
          (fun p => (p.1, if opt then ZodType.optional p.2 else p.2)))
        cfg)
  | _ => none

/-- A successful shape lookup comes from a member of the shape. -/
theorem lookupZ_mem (l : List (String × ZodType)) (k : String) (v : ZodType)
    (h : lookupZ l k = some v) : (k, v) ∈ l := by
  induction l with
  | nil => simp [lookupZ] at h
  | cons p rest ih =>
    obtain ⟨k2, v2⟩ := p
    by_cases hk : k2 = k
    · subst hk
      simp [lookupZ] at h
      simp [h]
    · simp [lookupZ, hk] at h
      exact List.mem_cons_of_mem _ (ih h)

/-- When `b` binds a key, the `a`-side of the extended shape does not. -/
theorem lookupZ_filter_none (sa sb : List (String × ZodType)) (k : String) (v : ZodType)
    (h : lookupZ sb k = some v) :
    lookupZ (sa.filter (fun p => (lookupZ sb p.1).isNone)) k = none := by
  induction sa with
  | nil => rfl
  | cons p rest ih =>
    obtain ⟨k2, v2⟩ := p
    by_cases hkeep : (lookupZ sb k2).isNone
    · have hk : ¬ k2 = k := by
        intro hk
        subst hk
        rw [h] at hkeep
        simp at hkeep
      simp [List.filter_cons, hkeep, lookupZ, hk, ih]
    · simp [List.filter_cons, hkeep, ih]

/-- Appending after a list that does not bind the key falls through. -/
theorem lookupZ_append_of_none (l1 l2 : List (String × ZodType)) (k : String)
    (h : lookupZ l1 k = none) : lookupZ (l1 ++ l2) k = lookupZ l2 k := by
  induction l1 with
  | nil => rfl
  | cons p rest ih =>
    obtain ⟨k2, v2⟩ := p
    by_cases hk : k2 = k
    · subst hk
      simp [lookupZ] at h
    · simp [lookupZ, hk] at h ⊢
      exact ih h

/-- Example object schemas of the source doc comment:
`entitySchema = {name: string, age: number}` and
`zFilterQuery = {location: string}` (distinct configs, to make config
propagation visible). -/
def entitySchemaDoc : ZodType := .object [("name", .string), ("age", .number)] ⟨0⟩

/-- Filter-query operand of the doc example. -/
def zFilterQueryDoc : ZodType := .object [("location", .string)] ⟨1⟩

/-- C7: merging two object schemas yields an object whose field set is
the union of both field sets, where any key bound by the right operand
takes the right operand's field, keys only bound on the left keep the
left field, and the resulting schema's config is the right operand's;
in particular `pick(entitySchema, [name])` merged with
`{location: string}` is exactly `{name, location}` under the right
operand's config. -/
theorem combine_objects_right_bias (sa sb : List (String × ZodType)) (ca cb : ZodConfig) :
    CombineZodObjects (.object sa ca) (.object sb cb)
      = some (.object (extendShape sa sb) cb)
    ∧ (∀ k, (∃ v, (k, v) ∈ extendShape sa sb) ↔
        ((∃ v, (k, v) ∈ sa) ∨ ∃ v, (k, v) ∈ sb))
    ∧ (∀ k v, lookupZ sb k = some v → lookupZ (extendShape sa sb) k = some v)
    ∧ (∀ k, lookupZ sb k = none → lookupZ (extendShape sa sb) k = lookupZ sa k)
    ∧ (PickZodObjectKeys entitySchemaDoc ["name"] false).bind
        (fun p => CombineZodObjects p zFilterQueryDoc)
        = some (.object [("name", .string), ("location", .string)] ⟨1⟩) := by
  refine ⟨rfl, ?_, ?_, ?_, rfl⟩
  · intro k
    constructor
    · rintro ⟨v, hv⟩
      rcases List.mem_append.mp hv with hv | hv
      · exact Or.inl ⟨v, (List.mem_filter.mp hv).1⟩
      · exact Or.inr ⟨v, hv⟩
    · rintro (⟨v, hv⟩ | ⟨v, hv⟩)
      · cases hb : lookupZ sb k with
        | some w => exact ⟨w, List.mem_append.mpr (Or.inr (lookupZ_mem _ _ _ hb))⟩
        | none =>
          refine ⟨v, List.mem_append.mpr (Or.inl (List.mem_filter.mpr ⟨hv, ?_⟩))⟩
          simp [hb]
      · exact ⟨v, List.mem_append.mpr (Or.inr hv)⟩
  · intro k v h
    unfold extendShape
    rw [lookupZ_append_of_none _ _ _ (lookupZ_filter_none sa sb k v h)]
    exact h
  · intro k h
    unfold extendShape
    induction sa with
    | nil => simpa [lookupZ] using h
    | cons p rest ih =>
      obtain ⟨k2, v2⟩ := p
      by_cases hk : k2 = k
      · subst hk
        have hkeep : (lookupZ sb k2).isNone := by simp [h]
        simp [List.filter_cons, hkeep, lookupZ]
      · by_cases hkeep : (lookupZ sb k2).isNone
        · simpa [List.filter_cons, hkeep, lookupZ, hk] using ih
        · simpa [List.filter_cons, hkeep, lookupZ, hk] using ih

/-- Witness for C7: on an overlapping key the merged schema holds the
right operand's field. -/
theorem combine_objects_right_bias_witness :
    lookupZ (extendShape [("x", ZodType.string)] [("x", ZodType.number)]) "x"
      = some ZodType.number :=
  (combine_objects_right_bias [("x", ZodType.string)] [("x", ZodType.number)] ⟨0⟩ ⟨1⟩).2.2.1
    "x" ZodType.number rfl

/-- JavaScript object-spread `{...a, ...b}` over string-keyed records:
keys of `a` in place (with `b` winning on collision), then the keys only
`b` binds. -/
def spreadObj (a b : List (String × Value)) : List (String × Value) :=
  a.map (fun p => (p.1, (lookupVal b p.1).getD p.2))
    ++ b.filter (fun p => (lookupVal a p.1).isNone)

/-- The metadata record `createCrudRouter` hands to the contract builder,
from the source: `c.router(mergedRoutes, { metadata: { authentication,
...metadata } })`, with the destructuring defaults `authentication = true`
and `metadata = {}`.  An omitted `authentication` argument is `none`. -/
def createCrudRouterMetadata (authentication : Option Bool)
    (metadata : List (String × Value)) : List (String × Value) :=
  spreadObj [("authentication", Value.bool (authentication.getD true))] metadata

/-- C10: the caller's metadata record wins over the `authentication`
parameter: when metadata binds the key `authentication`, the router
metadata holds that value whatever the parameter was; when it does not,
the router metadata holds the parameter's value, which defaults to
`true` when the parameter is omitted. -/
theorem crud_router_metadata_overrides_auth :
    (∀ (auth : Option Bool) (md : List (String × Value)) (v : Value),
      lookupVal md "authentication" = some v →
      lookupVal (createCrudRouterMetadata auth md) "authentication" = some v)
    ∧ (∀ (auth : Option Bool) (md : List (String × Value)),
      lookupVal md "authentication" = none →
      lookupVal (createCrudRouterMetadata auth md) "authentication"
        = some (Value.bool (auth.getD true))) := by
  constructor
  · intro auth md v h
    simp [createCrudRouterMetadata, spreadObj, lookupVal, h]
  · intro auth md h
    simp [createCrudRouterMetadata, spreadObj, lookupVal, h]

/-- Witness for C10: metadata `authentication = false` overrides the
explicit parameter `true`, and with no metadata key an omitted parameter
defaults to `true`. -/
theorem crud_router_metadata_overrides_auth_witness :
    lookupVal (createCrudRouterMetadata (some true) [("authentication", Value.bool false)])
      "authentication" = some (Value.bool false)
    ∧ lookupVal (createCrudRouterMetadata none [("other", Value.num 1)])
      "authentication" = some (Value.bool true) :=
  ⟨crud_router_metadata_overrides_auth.1 (some true) [("authentication", Value.bool false)]
      (Value.bool false) rfl,
   crud_router_metadata_overrides_auth.2 none [("other", Value.num 1)] rfl⟩

mutual
/-- A field type that contains no Object node anywhere and no
zero-member Union (zod never builds a meaningful empty union; the
conditional `Options[number] extends ZodObject` is vacuously true on one,
making the flattener drop the key, so empty unions are excluded from the
plain-field fragment). -/
def plainField : ZodType → Bool
  | .object _ _ => false
  | .optional t => plainField t
  | .nullable t => plainField t
  | .array t => plainField t
  | .union opts => !opts.isEmpty && plainFieldList opts
  | _ => true

/-- Every member of the list is a plain field type. -/
def plainFieldList : List ZodType → Bool
  | [] => true
  | t :: rest => plainField t && plainFieldList rest
end

/-- A plain field type is not an Object node. -/
theorem plainField_not_object (t : ZodType) (h : plainField t = true) :
    isObject t = false := by
  cases t <;> simp_all [plainField, isObject]

/-- Plainness survives unwrapping Optional/Nullable. -/
theorem plainField_unwrap : ∀ (t : ZodType), plainField t = true →
    plainField (unwrapZodType t) = true
  | .optional inner, h => plainField_unwrap inner (by simpa [plainField] using h)
  | .nullable inner, h => plainField_unwrap inner (by simpa [plainField] using h)
  | .string, h => h
  | .number, h => h
  | .boolean, h => h
  | .date, h => h
  | .dateTime, h => h
  | .literalStr _, h => h
  | .enumT _, h => h
  | .never, h => h
  | .zodTypeAny, h => h
  | .array _, h => h
  | .union _, h => h
  | .object _ _, h => by simp [plainField] at h

/-- On a plain field the flattener records exactly one entry, at the
unchanged path, holding the query type of the unwrapped field. -/
theorem flatten_field_plain : ∀ (t : ZodType) (path : String), plainField t = true →
    FlattenZodFieldWithTypes t path TSNum.num = [(path, QueryTypes (unwrapZodType t))]
  | .optional inner, path, h => by
      rw [show FlattenZodFieldWithTypes (ZodType.optional inner) path TSNum.num
            = FlattenZodFieldWithTypes inner path TSNum.num from rfl,
          show unwrapZodType (ZodType.optional inner) = unwrapZodType inner from rfl]
      exact flatten_field_plain inner path (by simpa [plainField] using h)
  | .nullable inner, path, h => by
      rw [show FlattenZodFieldWithTypes (ZodType.nullable inner) path TSNum.num
            = FlattenZodFieldWithTypes inner path TSNum.num from rfl,
          show unwrapZodType (ZodType.nullable inner) = unwrapZodType inner from rfl]
      exact flatten_field_plain inner path (by simpa [plainField] using h)
  | .union opts, path, h => by
      obtain ⟨o, rest, rfl⟩ : ∃ o rest, opts = o :: rest := by
        cases opts with
        | nil => simp [plainField, plainFieldList] at h
        | cons o rest => exact ⟨o, rest, rfl⟩
      have ho : plainField o = true := by
        have := (by simpa [plainField, plainFieldList, Bool.and_eq_true] using h :
          plainField o = true ∧ plainFieldList rest = true)
        exact this.1
      have hobj : isObject o = false := plainField_not_object o ho
      show (if (o :: rest).all isObject
            then flattenUnionList (o :: rest) (path ++ "_") TSNum.num
            else [(path, QueryTypes (ZodType.union (o :: rest)))])
          = [(path, QueryTypes (unwrapZodType (ZodType.union (o :: rest))))]
      simp [List.all_cons, hobj, unwrapZodType]
  | .string, _, _ => rfl
  | .number, _, _ => rfl
  | .boolean, _, _ => rfl
  | .date, _, _ => rfl
  | .dateTime, _, _ => rfl
  | .literalStr _, _, _ => rfl
  | .enumT _, _, _ => rfl
  | .never, _, _ => rfl
  | .zodTypeAny, _, _ => rfl
  | .array _, _, _ => rfl
  | .object _ _, _, h => by simp [plainField] at h

/-- Shape traversal over plain fields: one entry per field, keyed by the
path-extended field name. -/
theorem flattenShape_plain (l : List (String × ZodType)) (path : String) (d : TSNum)
    (h : ∀ p ∈ l, plainField p.2 = true) :
    flattenShape l path d
      = l.map (fun p => (path ++ p.1, QueryTypes (unwrapZodType p.2))) := by
  induction l with
  | nil => rfl
  | cons p rest ih =>
    obtain ⟨k, t⟩ := p
    have ht : plainField t = true := by simpa using h (k, t) (List.mem_cons_self _ _)
    have hrest := ih (fun q hm => h q (List.mem_cons_of_mem _ hm))
    show FlattenZodFieldWithTypes t (path ++ k) (TSNum.increment d)
        ++ flattenShape rest path d = _
    rw [show TSNum.increment d = TSNum.num from rfl, flatten_field_plain t (path ++ k) ht,
      hrest]
    simp

/-- The query type of a non-Object schema flattens as a single leaf:
whatever `QueryTypes` produced (the Boolean itself, or a union headed by
a non-Object member) is recorded at the unchanged path and wrapped by
`QueryTypes` again. -/
theorem flatten_field_query (u : ZodType) (path : String) :
    FlattenZodFieldWithTypes (QueryTypes u) path TSNum.num
      = [(path, QueryTypes (QueryTypes u))] := by
  cases u <;> rfl

/-- Shape traversal over first-round query types: one entry per field
again, each value wrapped by `QueryTypes` once more. -/
theorem flattenShape_query (l : List (String × ZodType)) (path : String) (d : TSNum)
    (h : ∀ q ∈ l, ∃ u, q.2 = QueryTypes u) :
    flattenShape l path d = l.map (fun q => (path ++ q.1, QueryTypes q.2)) := by
  induction l with
  | nil => rfl
  | cons q rest ih =>
    obtain ⟨k, t⟩ := q
    obtain ⟨u, ht⟩ := h (k, t) (List.mem_cons_self _ _)
    have hrest := ih (fun q2 hm => h q2 (List.mem_cons_of_mem _ hm))
    simp only at ht
    subst ht
    show FlattenZodFieldWithTypes (QueryTypes u) (path ++ k) (TSNum.increment d)
        ++ flattenShape rest path d = _
    rw [show TSNum.increment d = TSNum.num from rfl, flatten_field_query u (path ++ k),
      hrest]
    simp

/-- C5 counterexample: the schema `{u: union []}` has a top-level field
that contains no Object node at all (and is not an Object after
unwrapping), yet the flattener drops the key `u` entirely: the
conditional `Options[number] extends ZodObject` holds vacuously for the
empty member list, so the field is flattened as a union of zero objects. -/
theorem flatten_empty_union_drops_key :
    MergeFlattened (ZodType.object [("u", ZodType.union [])] ⟨0⟩) = some []
    ∧ ([] : List (String × ZodType)).map Prod.fst ≠ ["u"] :=
  ⟨rfl, by simp⟩

/-- C5 amended: for every schema each of whose top-level fields contains
no Object node and no zero-member Union, the flattener keeps every
top-level field name unchanged (the flattened map is exactly the fields
in order, each mapped to the query type of its unwrapped schema). -/
theorem flatten_plain_fields_keys_unchanged (shape : List (String × ZodType))
    (cfg : ZodConfig) (h : ∀ p ∈ shape, plainField p.2 = true) :
    MergeFlattened (ZodType.object shape cfg)
      = some (shape.map (fun p => (p.1, QueryTypes (unwrapZodType p.2))))
    ∧ (shape.map (fun p => (p.1, QueryTypes (unwrapZodType p.2)))).map Prod.fst
      = shape.map Prod.fst := by
  constructor
  · show some (flattenShape shape "" (TSNum.lit 0)) = _
    rw [flattenShape_plain shape "" (TSNum.lit 0) h]
    rfl
  · rw [List.map_map]
    rfl

/-- Witness for the amended C5 at a concrete schema with no nested
Objects. -/
theorem flatten_plain_fields_keys_unchanged_witness :
    MergeFlattened (ZodType.object [("a", ZodType.string), ("b", ZodType.boolean)] ⟨0⟩)
      = some [("a", QueryTypes ZodType.string), ("b", QueryTypes ZodType.boolean)]
    ∧ [("a", QueryTypes ZodType.string), ("b", QueryTypes ZodType.boolean)].map Prod.fst
      = ["a", "b"] :=
  (flatten_plain_fields_keys_unchanged [("a", ZodType.string), ("b", ZodType.boolean)] ⟨0⟩
    (by decide))

/-- C8 counterexample: on `{a: string}` (no nested Objects) flattening
the flattened schema is not the same map as flattening once: the first
round stores `union [string, string array, LHSStringSchema]` under `a`,
the second round re-wraps that union as `union [Q, Q array]`. -/
theorem reflatten_differs_from_single_flatten :
    (NestedZodKeysWithTypes (ZodType.object [("a", ZodType.string)] ⟨0⟩)).bind MergeFlattened
      ≠ MergeFlattened (ZodType.object [("a", ZodType.string)] ⟨0⟩) := by
  intro hEq
  have h1 : (NestedZodKeysWithTypes (ZodType.object [("a", ZodType.string)] ⟨0⟩)).bind
      MergeFlattened
      = some [("a", ZodType.union
          [QueryTypes ZodType.string, ZodType.array (QueryTypes ZodType.string)])] := rfl
  have h2 : MergeFlattened (ZodType.object [("a", ZodType.string)] ⟨0⟩)
      = some [("a", QueryTypes ZodType.string)] := rfl
  rw [h1, h2] at hEq
  simp [QueryTypes] at hEq

/-- C8 amended: for schemas whose top-level fields contain no Object
node and no empty Union, flattening twice yields a map with exactly the
same keys as flattening once (but not the same values: each query type
`Q` comes back as `QueryTypes Q`, which re-wraps every non-Boolean
leaf). -/
theorem reflatten_keys_stable (shape : List (String × ZodType)) (cfg : ZodConfig)
    (h : ∀ p ∈ shape, plainField p.2 = true) :
    MergeFlattened (ZodType.object shape cfg)
      = some (shape.map (fun p => (p.1, QueryTypes (unwrapZodType p.2))))
    ∧ (NestedZodKeysWithTypes (ZodType.object shape cfg)).bind MergeFlattened
      = some ((shape.map (fun p => (p.1, QueryTypes (unwrapZodType p.2)))).map
          (fun q => (q.1, QueryTypes q.2)))
    ∧ ((shape.map (fun p => (p.1, QueryTypes (unwrapZodType p.2)))).map
          (fun q => (q.1, QueryTypes q.2))).map Prod.fst
      = (shape.map (fun p => (p.1, QueryTypes (unwrapZodType p.2)))).map Prod.fst := by
  have h1 : MergeFlattened (ZodType.object shape cfg)
      = some (shape.map (fun p => (p.1, QueryTypes (unwrapZodType p.2)))) := by
    show some (flattenShape shape "" (TSNum.lit 0)) = _
    rw [flattenShape_plain shape "" (TSNum.lit 0) h]
    rfl
  refine ⟨h1, ?_, ?_⟩
  · show (MergeFlattened (ZodType.object shape cfg)).map
        (fun s => ZodType.object s cfg) >>= MergeFlattened = _
    rw [h1]
    show MergeFlattened (ZodType.object
        (shape.map (fun p => (p.1, QueryTypes (unwrapZodType p.2)))) cfg) = _
    show some (flattenShape
        (shape.map (fun p => (p.1, QueryTypes (unwrapZodType p.2)))) "" (TSNum.lit 0)) = _
    rw [flattenShape_query _ "" (TSNum.lit 0) ?_]
    · rfl
    · intro q hq
      obtain ⟨p, hp, hpq⟩ := List.mem_map.mp hq
      exact ⟨unwrapZodType p.2, by rw [← hpq]⟩
  · rw [List.map_map]
    rfl

/-- Witness for the amended C8 at `{a: string}`: same single key `a`
after both rounds. -/
theorem reflatten_keys_stable_witness :
    (NestedZodKeysWithTypes (ZodType.object [("a", ZodType.string)] ⟨0⟩)).bind MergeFlattened
      = some [("a", QueryTypes (QueryTypes ZodType.string))]
    ∧ [("a", QueryTypes (QueryTypes ZodType.string))].map Prod.fst
      = [("a", QueryTypes ZodType.string)].map Prod.fst :=
  ⟨(reflatten_keys_stable [("a", ZodType.string)] ⟨0⟩ (by decide)).2.1,
   (reflatten_keys_stable [("a", ZodType.string)] ⟨0⟩ (by decide)).2.2⟩
